import Mathlib

/-!
# Verification of the inplace-it storage-guard library

A shallow embedding of the storage-guard layer (src/guards/) and the
size-dispatch allocation layer (src/alloc_array.rs, src/lib.rs) of the
inplace-it repository, together with proofs of the specified properties.

A memory region of possibly-uninitialized slots (Rust slice of
MaybeUninit items) is modelled as a list of optional values:
a slot holding no value is an uninitialized slot, a slot holding a
value is an initialized one.  Destructor invocations are modelled as
an explicit event trace: each event records the index of the slot
(relative to the region handed to the consumer) and the slot content
at destruction time.
-/

namespace InplaceIt

/-- Maximum value of a Rust pointer-sized unsigned machine integer
(64-bit target). -/
def USIZE_MAX : Nat := 2 ^ 64 - 1

/-- Rust saturating addition of one on a pointer-sized unsigned integer. -/
def saturatingAdd1 (n : Nat) : Nat := min (n + 1) USIZE_MAX

/-- A Rust range bound (core::ops::Bound with usize payload). -/
inductive RBound where
  | included (n : Nat)
  | excluded (n : Nat)
  | unbounded
deriving DecidableEq, Repr

/-- A value implementing Rust RangeBounds over usize: a start bound and
an end bound. -/
structure RangeB where
  startB : RBound
  endB : RBound
deriving DecidableEq, Repr

/-- Start index computed by UninitializedSliceMemoryGuard::slice
(src/guards/uninitialized_slice_memory_guard.rs, match on
range.start_bound()). -/
def sliceStart (r : RangeB) : Nat :=
  match r.startB with
  | .excluded n => saturatingAdd1 n
  | .included n => n
  | .unbounded => 0

/-- End index computed by UninitializedSliceMemoryGuard::slice
(src/guards/uninitialized_slice_memory_guard.rs, match on
range.end_bound()); the unbounded case uses the guard length. -/
def sliceEnd (r : RangeB) (len : Nat) : Nat :=
  match r.endB with
  | .excluded n => n
  | .included n => saturatingAdd1 n
  | .unbounded => len

/-- Rust slice indexing memory[start..stop]: panics (modelled as
none) unless start ≤ stop and stop ≤ length; otherwise yields the
subslice of the elements at positions start, ..., stop - 1. -/
def rustIndexRange (mem : List (Option α)) (start stop : Nat) :
    Option (List (Option α)) :=
  if start ≤ stop ∧ stop ≤ mem.length then
    some ((mem.drop start).take (stop - start))
  else none

namespace UninitializedSliceMemoryGuard

/-- UninitializedSliceMemoryGuard::slice
(src/guards/uninitialized_slice_memory_guard.rs): compute the start
and end bounds, then reborrow memory[start..end]. -/
def slice (mem : List (Option α)) (r : RangeB) : Option (List (Option α)) :=
  rustIndexRange mem (sliceStart r) (sliceEnd r mem.length)

end UninitializedSliceMemoryGuard

namespace SliceMemoryGuard

/-- Loop body of SliceMemoryGuard::new
(src/guards/slice_memory_guard.rs): for each slot of the memory, in
front-to-back order, write the value produced by the initializer at the
slot's index.  Returns the written memory together with the trace of
indices passed to the initializer, in call order. -/
def newGo (initF : Nat → α) : List (Option α) → Nat → List (Option α) × List Nat
  | [], _ => ([], [])
  | _ :: rest, idx =>
    let r := newGo initF rest (idx + 1)
    (some (initF idx) :: r.1, idx :: r.2)

/-- Loop of the Drop impl of SliceMemoryGuard
(src/guards/slice_memory_guard.rs): drop_in_place on every slot of the
guard memory, front-to-back.  Each event records the absolute index of
the slot (the first slot of the guard memory sits at absolute index
idx) and the slot content at destruction time. -/
def dropGo : List (Option α) → Nat → List (Nat × Option α)
  | [], _ => []
  | x :: rest, idx => (idx, x) :: dropGo rest (idx + 1)

/-- The Deref impl of SliceMemoryGuard
(src/guards/slice_memory_guard.rs) transmutes the MaybeUninit slice
into a value slice; reading a slot with no value is undefined
behaviour, modelled as none. -/
def derefRead : List (Option α) → Option (List α)
  | [] => some []
  | none :: _ => none
  | some x :: rest => (derefRead rest).map (fun ys => x :: ys)

end SliceMemoryGuard

namespace UninitializedSliceMemoryGuard

/-- UninitializedSliceMemoryGuard::init_copy_of
(src/guards/uninitialized_slice_memory_guard.rs):
self.slice(..source.len()).init(|index| source[index].clone()).
Returns the initialized guard memory together with the initializer
call trace; none models the panic of an out-of-bounds slice. -/
def init_copy_of [Inhabited α] (mem : List (Option α)) (src : List α) :
    Option (List (Option α) × List Nat) :=
  match slice mem (RangeB.mk RBound.unbounded (RBound.excluded src.length)) with
  | none => none
  | some sub => some (SliceMemoryGuard.newGo (fun index => src.getD index default) sub 0)

end UninitializedSliceMemoryGuard

/-- A consumer passed to the allocation entry points, restricted to the
guard operations of the library: do nothing with the guard, narrow it
by sub-slicing, or turn it into an initialized slice guard through
init or init_copy_of (the initialized guard then goes out of scope at
the end of the consumer). -/
inductive ConsumerProg (α : Type) where
  | noInit
  | sliceThen (r : RangeB) (rest : ConsumerProg α)
  | initWith (f : Nat → α)
  | initCopyOf (src : List α)

/-- What running a consumer over a guarded region produces: the region
contents after the consumer (and the guards it created) finished, the
destructor event trace, and the trace of indices passed to the
initializer. -/
structure RunOut (α : Type) where
  region : List (Option α)
  drops : List (Nat × Option α)
  initCalls : List Nat
deriving DecidableEq, Repr

/-- Run a consumer over a memory region whose first slot sits at
absolute index base.  Sub-slicing reborrows part of the region (the
surrounding parts are untouched); init and init_copy_of build a
SliceMemoryGuard which is dropped at the end of the consumer's scope,
emitting one destructor event per guarded slot.  none models a panic
(out-of-bounds slice). -/
def runConsumer [Inhabited α] :
    ConsumerProg α → List (Option α) → Nat → Option (RunOut α)
  | .noInit, mem, _ => some ⟨mem, [], []⟩
  | .sliceThen r rest, mem, base =>
    match UninitializedSliceMemoryGuard.slice mem r with
    | none => none
    | some sub =>
      match runConsumer rest sub (base + sliceStart r) with
      | none => none
      | some out =>
        some ⟨mem.take (sliceStart r) ++ out.region ++ mem.drop (sliceEnd r mem.length),
              out.drops, out.initCalls⟩
  | .initWith f, mem, base =>
    let r := SliceMemoryGuard.newGo f mem 0
    some ⟨r.1, SliceMemoryGuard.dropGo r.1 base, r.2⟩
  | .initCopyOf src, mem, base =>
    match UninitializedSliceMemoryGuard.init_copy_of mem src with
    | none => none
    | some (g, calls) =>
      some ⟨g ++ mem.drop src.length, SliceMemoryGuard.dropGo g base, calls⟩

/-- Whether the consumer ever reaches an init or init_copy_of call. -/
def ConsumerProg.hasInit : ConsumerProg α → Bool
  | .noInit => false
  | .sliceThen _ rest => rest.hasInit
  | .initWith _ => true
  | .initCopyOf _ => true

/-- A Rust Vec: a buffer of slots and a length.  Dropping the vector
destructs the contents of its first len slots. -/
structure RustVec (α : Type) where
  buf : List (Option α)
  len : Nat

/-- Destructor events emitted when a Vec is dropped: the contents of
its first len slots are destructed front-to-back. -/
def vecDropEvents (v : RustVec α) : List (Nat × Option α) :=
  SliceMemoryGuard.dropGo (v.buf.take v.len) 0

/-- alloc_array (src/alloc_array.rs): allocate a Vec of size
uninitialized slots, set its length to size, hand the consumer an
UninitializedSliceMemoryGuard over the whole buffer, and after the
consumer returns reset the length to zero before the Vec is released.
The result is the total destructor event trace of the call. -/
def alloc_array_run [Inhabited α] (size : Nat) (prog : ConsumerProg α) :
    Option (List (Nat × Option α)) :=
  let memory_holder : RustVec α := ⟨List.replicate size none, size⟩
  match runConsumer prog memory_holder.buf 0 with
  | none => none
  | some out => some (out.drops ++ vecDropEvents ⟨out.region, 0⟩)

/-- Which storage the dispatch layer chose: an automatic-storage
(stack) buffer of a compile-time capacity, or a heap buffer of a
runtime element count. -/
inductive Storage where
  | stack (capacity : Nat)
  | heap (size : Nat)
deriving DecidableEq, Repr

/-- One safe_inplace arm of inplace_array_uninitialized (src/lib.rs):
if the byte size of the fixed-size array type [T; cap] (which is cap
times the byte size of T) is within the limit, carve the array out of
automatic storage; otherwise fall back to a heap buffer of exactly the
requested number of elements. -/
def safe_inplace (sizeOfT limit size cap : Nat) : Storage :=
  if cap * sizeOfT ≤ limit then Storage.stack cap else Storage.heap size

/-- The ordered range arms of the match of inplace_array_uninitialized
(src/lib.rs), one capacity per arm: the first arm whose upper endpoint
covers the size fires its safe_inplace; if no arm covers it, the
default arm allocates a heap buffer of exactly the requested size.
(The lower bounds of the source's range patterns are implied: each
arm is only reached once every earlier arm has failed to match.) -/
def range_lookup (sizeOfT limit size : Nat) : List Nat → Storage
  | [] => Storage.heap size
  | cap :: rest =>
    if size ≤ cap then safe_inplace sizeOfT limit size cap
    else range_lookup sizeOfT limit size rest

/-- count consecutive capacities 32 apart starting at c. -/
def caps_from (c : Nat) : Nat → List Nat
  | 0 => []
  | count + 1 => c :: caps_from (c + 32) count

/-- The 127 range-arm capacities 64, 96, 128, ..., 4096 of the match
of inplace_array_uninitialized (src/lib.rs). -/
def bucketCaps : List Nat := caps_from 64 127

/-- The storage decision taken by the match of
inplace_array_uninitialized (src/lib.rs): size 0 takes automatic
storage unconditionally; sizes 1 to 32 each have a safe_inplace arm of
exactly their own capacity; the range arms 33..=64 up to 4065..=4096
each fire the safe_inplace of their upper endpoint; every larger size
falls to the heap with no rounding. -/
def storage_decision (sizeOfT limit size : Nat) : Storage :=
  match size with
  | 0 => Storage.stack 0
  | 1 => safe_inplace sizeOfT limit size 1
  | 2 => safe_inplace sizeOfT limit size 2
  | 3 => safe_inplace sizeOfT limit size 3
  | 4 => safe_inplace sizeOfT limit size 4
  | 5 => safe_inplace sizeOfT limit size 5
  | 6 => safe_inplace sizeOfT limit size 6
  | 7 => safe_inplace sizeOfT limit size 7
  | 8 => safe_inplace sizeOfT limit size 8
  | 9 => safe_inplace sizeOfT limit size 9
  | 10 => safe_inplace sizeOfT limit size 10
  | 11 => safe_inplace sizeOfT limit size 11
  | 12 => safe_inplace sizeOfT limit size 12
  | 13 => safe_inplace sizeOfT limit size 13
  | 14 => safe_inplace sizeOfT limit size 14
  | 15 => safe_inplace sizeOfT limit size 15
  | 16 => safe_inplace sizeOfT limit size 16
  | 17 => safe_inplace sizeOfT limit size 17
  | 18 => safe_inplace sizeOfT limit size 18
  | 19 => safe_inplace sizeOfT limit size 19
  | 20 => safe_inplace sizeOfT limit size 20
  | 21 => safe_inplace sizeOfT limit size 21
  | 22 => safe_inplace sizeOfT limit size 22
  | 23 => safe_inplace sizeOfT limit size 23
  | 24 => safe_inplace sizeOfT limit size 24
  | 25 => safe_inplace sizeOfT limit size 25
  | 26 => safe_inplace sizeOfT limit size 26
  | 27 => safe_inplace sizeOfT limit size 27
  | 28 => safe_inplace sizeOfT limit size 28
  | 29 => safe_inplace sizeOfT limit size 29
  | 30 => safe_inplace sizeOfT limit size 30
  | 31 => safe_inplace sizeOfT limit size 31
  | 32 => safe_inplace sizeOfT limit size 32
  | _ => range_lookup sizeOfT limit size bucketCaps

/-- The bucket step function as §3 of the spec states it: exact for
sizes up to 32, rounded up to the next multiple of 32 above that. -/
def bucketSpec (n : Nat) : Nat :=
  if n ≤ 32 then n else ((n + 31) / 32) * 32

/-- Modelled from the spec: try_inplace_array is used by
inplace_or_alloc_array (src/alloc_array.rs) but its definition is not
among the source files.  Per §4.2 of the spec it computes the bucket
capacity for the requested size (the bucket table transcribed here as
storage_decision from src/lib.rs), and when automatic storage is
feasible it carves a frame-scoped buffer of exactly that compile-time
capacity, wraps it in an uninitialized slice guard and truncates the
guard to exactly the requested size before the consumer sees it;
otherwise it returns the consumer back (modelled as none).  sizeOfT
is the byte size of the element type and limit the configured
byte-size feasibility limit. -/
def try_inplace_array_guard (sizeOfT limit size : Nat) :
    Option (List (Option α)) :=
  match storage_decision sizeOfT limit size with
  | .stack cap => some ((List.replicate cap (none : Option α)).take size)
  | .heap _ => none

/-- The region that inplace_or_alloc_array (src/alloc_array.rs) hands
to its consumer: the truncated automatic-storage guard when
try_inplace_array succeeds, otherwise the heap buffer of alloc_array
(a Vec of exactly size slots). -/
def inplace_or_alloc_array_guard (sizeOfT limit size : Nat) :
    List (Option α) :=
  match try_inplace_array_guard (α := α) sizeOfT limit size with
  | some g => g
  | none => List.replicate size none

/-- inplace_or_alloc_array (src/alloc_array.rs) with the consumer run
over the region it is handed: on the automatic-storage path the frame
buffer is released with no element destructors of its own (its slots
are MaybeUninit), so the destructor trace is the consumer's; on the
heap path the call is alloc_array. -/
def inplace_or_alloc_array_run [Inhabited α] (sizeOfT limit size : Nat)
    (prog : ConsumerProg α) : Option (List (Nat × Option α)) :=
  match try_inplace_array_guard (α := α) sizeOfT limit size with
  | some g => (runConsumer prog g 0).map RunOut.drops
  | none => alloc_array_run size prog


/-- The dispatch decision as §4.2 of the spec states it: automatic
storage of capacity bucketSpec exactly when the size is within the
table and the bucket byte size (bucket capacity times element byte
size) is within the limit, a heap buffer of the exact requested size
otherwise. -/
def storage_decision_spec (sizeOfT limit n : Nat) : Storage :=
  if n ≤ 4096 ∧ bucketSpec n * sizeOfT ≤ limit then Storage.stack (bucketSpec n)
  else Storage.heap n

/-- Helper: under the table ceiling, the spec-side dispatch collapses
to the safe_inplace arm of the bucket capacity. -/
lemma bucketSpec_arm (sizeOfT limit n cap : Nat) (h4 : n ≤ 4096)
    (hb : bucketSpec n = cap) :
    storage_decision_spec sizeOfT limit n = safe_inplace sizeOfT limit n cap := by
  unfold storage_decision_spec
  subst hb
  simp only [safe_inplace, h4, true_and]

/-- Helper: above the table ceiling, the spec-side dispatch is the heap. -/
lemma specRHS_heap (sizeOfT limit n : Nat) (h : 4096 < n) :
    storage_decision_spec sizeOfT limit n = Storage.heap n := by
  unfold storage_decision_spec
  exact if_neg (fun hc => absurd hc.1 (by omega))

/-- Walking the range arms: for a size above 32, the first arm whose
capacity covers it fires the safe_inplace of the bucket capacity, and
if the size is beyond the last capacity the heap default fires. -/
lemma range_lookup_caps_from (sizeOfT limit n : Nat) (hn : 32 < n) :
    ∀ (count c : Nat), 32 ∣ c → 63 < c → c ≤ n + 31 →
      range_lookup sizeOfT limit n (caps_from c count) =
        if n ≤ c + 32 * count - 32 ∧ 0 < count
        then safe_inplace sizeOfT limit n (bucketSpec n)
        else Storage.heap n := by
  intro count
  induction count with
  | zero =>
    intro c hdvd hc64 hcn
    simp [caps_from, range_lookup]
  | succ k ih =>
    intro c hdvd hc64 hcn
    rw [caps_from, range_lookup]
    by_cases hnc : n ≤ c
    · have hb : bucketSpec n = c := by
        unfold bucketSpec
        rw [if_neg (by omega)]
        omega
      rw [if_pos hnc, if_pos ⟨by omega, by omega⟩, hb]
    · rw [if_neg hnc, ih (c + 32) (by omega) (by omega) (by omega)]
      by_cases hnb : n ≤ c + 32 * k
      · rw [if_pos ⟨by omega, by omega⟩, if_pos ⟨by omega, by omega⟩]
      · rw [if_neg (fun hq => absurd hq.1 (by omega)),
            if_neg (fun hq => absurd hq.1 (by omega))]

/-- The transcription of the dispatch match agrees with the spec's
closed-form bucket rule. -/
lemma storage_decision_eq (sizeOfT limit n : Nat) :
    storage_decision sizeOfT limit n = storage_decision_spec sizeOfT limit n := by
  by_cases h32 : n ≤ 32
  · interval_cases n <;>
      first
      | exact (bucketSpec_arm sizeOfT limit _ _ (by omega) (by decide)).symm
      | exact ((bucketSpec_arm sizeOfT limit 0 0 (by omega) (by decide)).trans
          (by simp [safe_inplace, storage_decision])).symm
  · obtain ⟨m, rfl⟩ : ∃ m, n = m + 33 := ⟨n - 33, by omega⟩
    have hred : storage_decision sizeOfT limit (m + 33)
        = range_lookup sizeOfT limit (m + 33) (caps_from 64 127) := rfl
    rw [hred, range_lookup_caps_from sizeOfT limit (m + 33) (by omega) 127 64
          (by omega) (by omega) (by omega)]
    by_cases h4 : m + 33 ≤ 4096
    · rw [if_pos ⟨by omega, by omega⟩]
      exact (bucketSpec_arm sizeOfT limit (m + 33) (bucketSpec (m + 33)) h4 rfl).symm
    · rw [if_neg (fun hq => absurd hq.1 (by omega))]
      exact (specRHS_heap sizeOfT limit (m + 33) (by omega)).symm

/-- The initializer loop writes the value of the initializer at each
index and records one call per slot, in ascending index order. -/
lemma newGo_eq (f : Nat → α) : ∀ (mem : List (Option α)) (k : Nat),
    SliceMemoryGuard.newGo f mem k
      = ((List.range' k mem.length).map (fun i => some (f i)), List.range' k mem.length)
  | [], _ => rfl
  | _ :: rest, k => by
    have ih := newGo_eq f rest (k + 1)
    simp [SliceMemoryGuard.newGo, ih, List.range'_succ]

/-- The destructor loop over an index-mapped region emits one event
per slot, in ascending index order, carrying the slot content. -/
lemma dropGo_map_range' (g : Nat → Option α) : ∀ (n k : Nat),
    SliceMemoryGuard.dropGo ((List.range' k n).map g) k
      = (List.range' k n).map (fun i => (i, g i))
  | 0, _ => rfl
  | n + 1, k => by
    have ih := dropGo_map_range' g n (k + 1)
    simp [List.range'_succ, SliceMemoryGuard.dropGo, ih]

/-- Every destructor event's content is a slot of the dropped region. -/
lemma mem_dropGo {e : Nat × Option α} : ∀ (l : List (Option α)) (k : Nat),
    e ∈ SliceMemoryGuard.dropGo l k → e.2 ∈ l
  | [], _, h => by simp [SliceMemoryGuard.dropGo] at h
  | x :: rest, k, h => by
    rw [SliceMemoryGuard.dropGo] at h
    rcases List.mem_cons.mp h with h1 | h2
    · subst h1; exact List.mem_cons_self x rest
    · exact List.mem_cons_of_mem x (mem_dropGo rest (k + 1) h2)

/-- Reading a fully initialized region through the guard's Deref
recovers exactly the written values. -/
lemma derefRead_map_some : ∀ (src : List α),
    SliceMemoryGuard.derefRead (src.map some) = some src
  | [] => rfl
  | x :: rest => by
    simp [SliceMemoryGuard.derefRead, derefRead_map_some rest]

/-- Reading back a list by index, in order, reproduces the list. -/
lemma map_range_getD [Inhabited α] : ∀ (src : List α),
    (List.range src.length).map (fun i => some (src.getD i default)) = src.map some
  | [] => rfl
  | x :: rest => by
    rw [List.map, List.length_cons, List.range_succ_eq_map, List.map_cons, List.map_map]
    rw [List.getD_cons_zero]
    have : ((fun i => some ((x :: rest).getD i default)) ∘ Nat.succ)
        = fun i => some (rest.getD i default) := by
      funext i
      simp [List.getD_cons_succ]
    rw [this, map_range_getD rest]

/-- Running a consumer that initializes the whole guard with an
index-to-value function: every slot is written, one destructor event
fires per slot in ascending order, and the initializer is called once
per index in ascending order. -/
lemma run_initWith [Inhabited α] (f : Nat → α) (mem : List (Option α)) :
    runConsumer (ConsumerProg.initWith f) mem 0
      = some ⟨(List.range mem.length).map (fun i => some (f i)),
              (List.range mem.length).map (fun i => (i, some (f i))),
              List.range mem.length⟩ := by
  rw [runConsumer]
  rw [List.range_eq_range']
  have hnew := newGo_eq f mem 0
  have hdrop := dropGo_map_range' (fun i => some (f i)) mem.length 0
  simp only [hnew, hdrop]

/-- init_copy_of on a guard at least as long as the source initializes
exactly the first source-length slots with the source values, calling
the initializer once per index in ascending order. -/
lemma init_copy_of_eq [Inhabited α] (mem : List (Option α)) (src : List α)
    (h : src.length ≤ mem.length) :
    UninitializedSliceMemoryGuard.init_copy_of mem src
      = some (src.map some, List.range src.length) := by
  rw [UninitializedSliceMemoryGuard.init_copy_of]
  have hslice : UninitializedSliceMemoryGuard.slice mem
      (RangeB.mk RBound.unbounded (RBound.excluded src.length)) = some (mem.take src.length) := by
    rw [UninitializedSliceMemoryGuard.slice, rustIndexRange]
    simp only [sliceStart, sliceEnd]
    rw [if_pos ⟨Nat.zero_le _, h⟩]
    rw [List.drop_zero, Nat.sub_zero]
  have hlen : (mem.take src.length).length = src.length := by
    rw [List.length_take]
    omega
  simp only [hslice, newGo_eq, hlen, ← List.range_eq_range', map_range_getD]

/-- Running a consumer that copy-initializes from a source no longer
than the guard: the first source-length slots get the source values,
the rest of the region is untouched, one destructor event fires per
initialized slot in ascending order, and the initializer is called
once per index below the source length, in ascending order. -/
lemma run_initCopyOf [Inhabited α] (mem : List (Option α)) (src : List α)
    (h : src.length ≤ mem.length) :
    runConsumer (ConsumerProg.initCopyOf src) mem 0
      = some ⟨src.map some ++ mem.drop src.length,
              (List.range src.length).map (fun i => (i, some (src.getD i default))),
              List.range src.length⟩ := by
  rw [runConsumer]
  have hdrop : SliceMemoryGuard.dropGo (src.map some) 0
      = (List.range src.length).map (fun i => (i, some (src.getD i default))) := by
    conv_lhs => rw [← map_range_getD src]
    rw [List.range_eq_range']
    rw [dropGo_map_range' (fun i => some (src.getD i default)) src.length 0]
  simp only [init_copy_of_eq mem src h, hdrop]


/-- The requested size never exceeds its bucket capacity. -/
lemma le_bucketSpec (n : Nat) : n ≤ bucketSpec n := by
  unfold bucketSpec
  split <;> omega

/-- try_inplace_array either hands out an automatic-storage guard
truncated to exactly the requested size (feasible case) or returns the
consumer back (none). -/
lemma try_inplace_array_guard_eq (sizeOfT limit size : Nat) :
    try_inplace_array_guard (α := α) sizeOfT limit size =
      if size ≤ 4096 ∧ bucketSpec size * sizeOfT ≤ limit
      then some (List.replicate size none)
      else none := by
  rw [try_inplace_array_guard, storage_decision_eq, storage_decision_spec]
  by_cases hc : size ≤ 4096 ∧ bucketSpec size * sizeOfT ≤ limit
  · rw [if_pos hc, if_pos hc]
    have hmin : size ⊓ bucketSpec size = size := by
      have := le_bucketSpec size
      omega
    simp [List.take_replicate, hmin]
  · rw [if_neg hc, if_neg hc]

/-- Whatever dispatch path is taken, the region handed to the
consumer is exactly size uninitialized slots. -/
lemma guard_eq_replicate (sizeOfT limit size : Nat) :
    inplace_or_alloc_array_guard (α := α) sizeOfT limit size
      = List.replicate size none := by
  rw [inplace_or_alloc_array_guard, try_inplace_array_guard_eq]
  by_cases hc : size ≤ 4096 ∧ bucketSpec size * sizeOfT ≤ limit
  · rw [if_pos hc]
  · rw [if_neg hc]

/-- A successful slice means the bounds were within the parent and the
result is the corresponding drop-take window. -/
lemma slice_some (mem : List (Option α)) (r : RangeB) (sub : List (Option α))
    (h : UninitializedSliceMemoryGuard.slice mem r = some sub) :
    sliceStart r ≤ sliceEnd r mem.length ∧ sliceEnd r mem.length ≤ mem.length
      ∧ sub = (mem.drop (sliceStart r)).take (sliceEnd r mem.length - sliceStart r) := by
  rw [UninitializedSliceMemoryGuard.slice, rustIndexRange] at h
  split at h
  · rename_i hc
    exact ⟨hc.1, hc.2, (Option.some.inj h).symm⟩
  · exact Option.noConfusion h

/-- On a zero-length region a consumer that completes leaves the
region empty and produces no destructor events. -/
lemma runConsumer_nil [Inhabited α] : ∀ (prog : ConsumerProg α) (base : Nat)
    (out : RunOut α), runConsumer prog [] base = some out →
    out.region = [] ∧ out.drops = []
  | .noInit, base, out, h => by
    rw [runConsumer] at h
    cases h
    exact ⟨rfl, rfl⟩
  | .sliceThen r rest, base, out, h => by
    rw [runConsumer] at h
    split at h
    · exact Option.noConfusion h
    · rename_i sub hs
      have hsub : sub = [] := by
        have h3 := (slice_some [] r sub hs).2.2
        simpa using h3
      subst hsub
      split at h
      · exact Option.noConfusion h
      · rename_i out2 hr
        cases h
        have hrest := runConsumer_nil rest (base + sliceStart r) out2 hr
        exact ⟨by simp [hrest.1], hrest.2⟩
  | .initWith f, base, out, h => by
    rw [runConsumer] at h
    cases h
    exact ⟨rfl, rfl⟩
  | .initCopyOf src, base, out, h => by
    rw [runConsumer] at h
    split at h
    · exact Option.noConfusion h
    · rename_i g calls hic
      have hg : g = [] := by
        rw [UninitializedSliceMemoryGuard.init_copy_of] at hic
        split at hic
        · exact Option.noConfusion hic
        · rename_i sub hs
          have hsub : sub = [] := by
            have h3 := (slice_some [] _ sub hs).2.2
            simpa using h3
          subst hsub
          have hp := congrArg Prod.fst (Option.some.inj hic)
          simpa [SliceMemoryGuard.newGo] using hp.symm
      subst hg
      cases h
      exact ⟨by simp, rfl⟩

/-- Every destructor event of a completed consumer run carries an
initialized slot content. -/
lemma drops_isSome [Inhabited α] : ∀ (prog : ConsumerProg α) (mem : List (Option α))
    (base : Nat) (out : RunOut α),
    runConsumer prog mem base = some out → ∀ e ∈ out.drops, (e.2).isSome = true
  | .noInit, mem, base, out, h => by
    rw [runConsumer] at h
    cases h
    intro e he
    simp at he
  | .sliceThen r rest, mem, base, out, h => by
    rw [runConsumer] at h
    split at h
    · exact Option.noConfusion h
    · rename_i sub hs
      split at h
      · exact Option.noConfusion h
      · rename_i out2 hr
        cases h
        intro e he
        exact drops_isSome rest sub (base + sliceStart r) out2 hr e he
  | .initWith f, mem, base, out, h => by
    rw [runConsumer] at h
    cases h
    intro e he
    have h2 := mem_dropGo _ base he
    rw [newGo_eq] at h2
    simp at h2
    obtain ⟨i, hi, hei⟩ := h2
    rw [← hei]
    rfl
  | .initCopyOf src, mem, base, out, h => by
    rw [runConsumer] at h
    split at h
    · exact Option.noConfusion h
    · rename_i g calls hic
      cases h
      intro e he
      have hmem := mem_dropGo g base he
      rw [UninitializedSliceMemoryGuard.init_copy_of] at hic
      split at hic
      · exact Option.noConfusion hic
      · rename_i sub hs
        have hp := congrArg Prod.fst (Option.some.inj hic)
        rw [newGo_eq] at hp
        simp only at hp
        rw [← hp] at hmem
        simp at hmem
        obtain ⟨i, hi, hei⟩ := hmem
        rw [← hei]
        rfl

/-- A consumer that never initializes leaves the region untouched and
produces no destructor events. -/
lemma run_noInit_drops [Inhabited α] : ∀ (prog : ConsumerProg α),
    prog.hasInit = false →
    ∀ (mem : List (Option α)) (base : Nat) (out : RunOut α),
      runConsumer prog mem base = some out →
      out.drops = [] ∧ out.region = mem
  | .noInit, _, mem, base, out, h => by
    rw [runConsumer] at h
    cases h
    exact ⟨rfl, rfl⟩
  | .sliceThen r rest, hno, mem, base, out, h => by
    rw [runConsumer] at h
    split at h
    · exact Option.noConfusion h
    · rename_i sub hs
      split at h
      · exact Option.noConfusion h
      · rename_i out2 hr
        cases h
        have hrest := run_noInit_drops rest (by simpa [ConsumerProg.hasInit] using hno)
          sub (base + sliceStart r) out2 hr
        refine ⟨hrest.1, ?_⟩
        obtain ⟨hc1, hc2, hsub⟩ := slice_some mem r sub hs
        simp only [hrest.2, hsub]
        have h1 : mem.drop (sliceEnd r mem.length)
            = (mem.drop (sliceStart r)).drop (sliceEnd r mem.length - sliceStart r) := by
          rw [List.drop_drop]
          congr 1
          omega
        rw [h1, List.append_assoc, List.take_append_drop, List.take_append_drop]
  | .initWith f, hno, mem, base, out, h => by
    exact Bool.noConfusion hno
  | .initCopyOf src, hno, mem, base, out, h => by
    exact Bool.noConfusion hno


/-- alloc_array's destructor trace is exactly the consumer's: after
the length reset, the vector's own drop contributes no events. -/
lemma alloc_array_run_eq [Inhabited α] (size : Nat) (prog : ConsumerProg α) :
    alloc_array_run size prog
      = (runConsumer prog (List.replicate size none) 0).map RunOut.drops := by
  rw [alloc_array_run]
  cases h : runConsumer prog (List.replicate size (none : Option α)) 0 with
  | none => simp [h]
  | some out => simp [h, vecDropEvents, SliceMemoryGuard.dropGo]

/-- Both dispatch paths run the consumer over a region of exactly size
uninitialized slots and report exactly its destructor trace. -/
lemma inplace_run_eq [Inhabited α] (sizeOfT limit size : Nat) (prog : ConsumerProg α) :
    inplace_or_alloc_array_run sizeOfT limit size prog
      = (runConsumer prog (List.replicate size none) 0).map RunOut.drops := by
  rw [inplace_or_alloc_array_run, try_inplace_array_guard_eq]
  by_cases hc : size ≤ 4096 ∧ bucketSpec size * sizeOfT ≤ limit
  · rw [if_pos hc]
  · rw [if_neg hc]
    exact alloc_array_run_eq size prog

/-- C1: for every N and element type, a consumer that initializes the
N elements of the guard through init or init_copy_of and lets the
initialized guard go out of scope causes exactly N destructor events,
one per index 0, ..., N-1, each carrying the initialized value — both
through alloc_array and through inplace_or_alloc_array, for every
configured element byte size and byte limit. -/
theorem exactly_once_destruction {α : Type} [Inhabited α] (sizeOfT limit size : Nat)
    (f : Nat → α) (src : List α) (hsrc : src.length = size) :
    alloc_array_run size (ConsumerProg.initWith f)
        = some ((List.range size).map (fun i => (i, some (f i))))
    ∧ inplace_or_alloc_array_run sizeOfT limit size (ConsumerProg.initWith f)
        = some ((List.range size).map (fun i => (i, some (f i))))
    ∧ alloc_array_run size (ConsumerProg.initCopyOf src)
        = some ((List.range size).map (fun i => (i, some (src.getD i default))))
    ∧ inplace_or_alloc_array_run sizeOfT limit size (ConsumerProg.initCopyOf src)
        = some ((List.range size).map (fun i => (i, some (src.getD i default)))) := by
  have hW : (runConsumer (ConsumerProg.initWith f)
        (List.replicate size (none : Option α)) 0).map RunOut.drops
      = some ((List.range size).map (fun i => (i, some (f i)))) := by
    rw [run_initWith]
    simp
  have hC : (runConsumer (ConsumerProg.initCopyOf src)
        (List.replicate size (none : Option α)) 0).map RunOut.drops
      = some ((List.range size).map (fun i => (i, some (src.getD i default)))) := by
    rw [run_initCopyOf _ _ (by rw [hsrc, List.length_replicate])]
    simp [hsrc]
  exact ⟨by rw [alloc_array_run_eq]; exact hW, by rw [inplace_run_eq]; exact hW,
         by rw [alloc_array_run_eq]; exact hC, by rw [inplace_run_eq]; exact hC⟩

/-- Witness for C1 at a bucket-straddling size. -/
theorem exactly_once_destruction_witness :
    (List.range 33).length = 33
    ∧ alloc_array_run 33 (ConsumerProg.initWith (fun i : Nat => i))
        = some ((List.range 33).map (fun i => (i, some i))) :=
  ⟨by decide,
   (exactly_once_destruction 1 4096 33 (fun i => i) (List.range 33) (by simp)).1⟩

/-- C2: the guard handed to the consumer of inplace_or_alloc_array has
length exactly the requested size, for every element byte size, byte
limit and size — bucket rounding slack is truncated away and the heap
buffer is exact. -/
theorem exact_observed_length (α : Type) (sizeOfT limit size : Nat) :
    (inplace_or_alloc_array_guard (α := α) sizeOfT limit size).length = size := by
  rw [guard_eq_replicate, List.length_replicate]

/-- C3: the dispatch decision of inplace_array_uninitialized — exact
capacity up to 32, capacity rounded up to the next multiple of 32 up
to 4096, automatic storage exactly when the size is within the table
and the bucket byte size is within the limit, otherwise a heap buffer
of exactly the requested size. -/
theorem bucket_selection_characterization (sizeOfT limit size : Nat) :
    storage_decision sizeOfT limit size =
      if size ≤ 4096 ∧ bucketSpec size * sizeOfT ≤ limit
      then Storage.stack (bucketSpec size) else Storage.heap size :=
  (storage_decision_eq sizeOfT limit size).trans (by rw [storage_decision_spec])

/-- C4: a consumer that never calls init or init_copy_of (on the guard
or any sub-slice of it) causes zero destructor events and leaves the
region untouched. -/
theorem no_destructor_without_init {α : Type} [Inhabited α]
    (prog : ConsumerProg α) (mem : List (Option α)) (base : Nat) (out : RunOut α)
    (hno : prog.hasInit = false) (hrun : runConsumer prog mem base = some out) :
    out.drops = [] ∧ out.region = mem :=
  run_noInit_drops prog hno mem base out hrun

/-- Witness for C4: sub-slice then discard, on a two-slot region. -/
theorem no_destructor_without_init_witness :
    ConsumerProg.hasInit (ConsumerProg.sliceThen
        (RangeB.mk (RBound.included 0) (RBound.excluded 1))
        (ConsumerProg.noInit (α := Nat))) = false
    ∧ runConsumer (ConsumerProg.sliceThen
        (RangeB.mk (RBound.included 0) (RBound.excluded 1)) ConsumerProg.noInit)
        ([none, none] : List (Option Nat)) 0
        = some ⟨[none, none], [], []⟩
    ∧ (RunOut.mk ([none, none] : List (Option Nat)) [] []).drops = [] := by
  have hrun : runConsumer (ConsumerProg.sliceThen
      (RangeB.mk (RBound.included 0) (RBound.excluded 1)) ConsumerProg.noInit)
      ([none, none] : List (Option Nat)) 0
      = some ⟨[none, none], [], []⟩ := by decide
  exact ⟨by decide, hrun,
    (no_destructor_without_init _ _ 0 _ (by decide) hrun).1⟩

/-- C5: slicing a length-10 guard to 3..7 yields a length-4 guard over
the parent's elements at indices 3, 4, 5, 6; a range whose end or
start bound falls beyond the parent is rejected (none, the model of a
panic), never clamped. -/
theorem subslicing_never_widens {α : Type} (mem : List (Option α))
    (hlen : mem.length = 10) :
    UninitializedSliceMemoryGuard.slice mem
        (RangeB.mk (RBound.included 3) (RBound.excluded 7))
        = some ((mem.drop 3).take 4)
    ∧ ((mem.drop 3).take 4).length = 4
    ∧ (∀ i, i < 4 → ((mem.drop 3).take 4)[i]? = mem[3 + i]?)
    ∧ (∀ r : RangeB, mem.length < sliceEnd r mem.length →
        UninitializedSliceMemoryGuard.slice mem r = none)
    ∧ (∀ r : RangeB, mem.length < sliceStart r →
        UninitializedSliceMemoryGuard.slice mem r = none) := by
  refine ⟨?_, ?_, ?_, ?_, ?_⟩
  · rw [UninitializedSliceMemoryGuard.slice, rustIndexRange]
    simp only [sliceStart, sliceEnd]
    rw [if_pos ⟨by omega, by omega⟩]
  · rw [List.length_take, List.length_drop]
    omega
  · intro i hi
    rw [List.getElem?_take, if_pos hi, List.getElem?_drop]
  · intro r hr
    rw [UninitializedSliceMemoryGuard.slice, rustIndexRange, if_neg]
    intro hc
    omega
  · intro r hr
    rw [UninitializedSliceMemoryGuard.slice, rustIndexRange, if_neg]
    intro hc
    omega

/-- Witness for C5 on a concrete length-10 region. -/
theorem subslicing_never_widens_witness :
    ((List.range 10).map (fun i => some i)).length = 10
    ∧ UninitializedSliceMemoryGuard.slice ((List.range 10).map (fun i => some i))
        (RangeB.mk (RBound.included 3) (RBound.excluded 7))
        = some ((((List.range 10).map (fun i => some i)).drop 3).take 4) :=
  ⟨by decide, (subslicing_never_widens _ (by decide)).1⟩

/-- C6: init_copy_of from a source no longer than the guard succeeds
and reading the resulting initialized slice through Deref recovers a
sequence element-wise equal to the source, of the source's length. -/
theorem init_copy_of_roundtrip {α : Type} [Inhabited α]
    (mem : List (Option α)) (src : List α) (h : src.length ≤ mem.length) :
    ∃ g calls, UninitializedSliceMemoryGuard.init_copy_of mem src = some (g, calls)
      ∧ SliceMemoryGuard.derefRead g = some src ∧ g.length = src.length :=
  ⟨src.map some, List.range src.length, init_copy_of_eq mem src h,
   derefRead_map_some src, by simp⟩

/-- Witness for C6 at source length 17. -/
theorem init_copy_of_roundtrip_witness :
    (List.range 17).length ≤ (List.replicate 17 (none : Option Nat)).length
    ∧ ∃ g calls,
        UninitializedSliceMemoryGuard.init_copy_of
          (List.replicate 17 (none : Option Nat)) (List.range 17) = some (g, calls)
        ∧ SliceMemoryGuard.derefRead g = some (List.range 17)
        ∧ g.length = (List.range 17).length :=
  ⟨by decide, init_copy_of_roundtrip _ _ (by decide)⟩

/-- C7: init calls the initializer exactly once per index, in
ascending order 0, ..., N-1, storing each returned value at its index;
init_copy_of initializes exactly the first source-length slots (its
initializer calls are the indices below the source length, ascending)
and the rest of the region is left untouched. -/
theorem init_order_and_partial_copy {α : Type} [Inhabited α] (f : Nat → α)
    (mem : List (Option α)) (src : List α) (h : src.length ≤ mem.length) :
    (SliceMemoryGuard.newGo f mem 0).2 = List.range mem.length
    ∧ (SliceMemoryGuard.newGo f mem 0).1
        = (List.range mem.length).map (fun i => some (f i))
    ∧ runConsumer (ConsumerProg.initCopyOf src) mem 0
        = some ⟨src.map some ++ mem.drop src.length,
                (List.range src.length).map (fun i => (i, some (src.getD i default))),
                List.range src.length⟩ := by
  refine ⟨?_, ?_, run_initCopyOf mem src h⟩
  · rw [newGo_eq, List.range_eq_range']
  · rw [newGo_eq, List.range_eq_range']

/-- Witness for C7 on a three-slot region and a two-element source. -/
theorem init_order_and_partial_copy_witness :
    ([5, 6] : List Nat).length ≤ (List.replicate 3 (none : Option Nat)).length
    ∧ (SliceMemoryGuard.newGo (fun i : Nat => i)
        (List.replicate 3 (none : Option Nat)) 0).2
      = List.range (List.replicate 3 (none : Option Nat)).length :=
  ⟨by decide,
   (init_order_and_partial_copy (fun i => i)
     (List.replicate 3 (none : Option Nat)) [5, 6] (by decide)).1⟩

/-- C8: init_copy_of with a source strictly longer than the guard
fails fast (none, the model of the slice-index panic) for every such
guard and source — it never truncates the source to fit. -/
theorem init_copy_of_longer_source_fails_fast {α : Type} [Inhabited α]
    (mem : List (Option α)) (src : List α) (h : mem.length < src.length) :
    UninitializedSliceMemoryGuard.init_copy_of mem src = none := by
  rw [UninitializedSliceMemoryGuard.init_copy_of]
  have hs : UninitializedSliceMemoryGuard.slice mem
      (RangeB.mk RBound.unbounded (RBound.excluded src.length)) = none := by
    rw [UninitializedSliceMemoryGuard.slice, rustIndexRange]
    simp only [sliceStart, sliceEnd]
    rw [if_neg]
    intro hc
    omega
  rw [hs]

/-- Witness for C8: empty guard, one-element source. -/
theorem init_copy_of_longer_source_fails_fast_witness :
    ([] : List (Option Nat)).length < ([1] : List Nat).length
    ∧ UninitializedSliceMemoryGuard.init_copy_of ([] : List (Option Nat)) [1] = none :=
  ⟨by decide, init_copy_of_longer_source_fails_fast [] [1] (by decide)⟩

/-- C9: size 0 always takes the zero-capacity automatic-storage arm
for every limit (including 0) and every element byte size; the guard
the consumer receives is the empty region; and no consumer run ever
produces a destructor event at size 0. -/
theorem size_zero_trivial (α : Type) [Inhabited α] (sizeOfT limit : Nat) :
    storage_decision sizeOfT limit 0 = Storage.stack 0
    ∧ inplace_or_alloc_array_guard (α := α) sizeOfT limit 0 = []
    ∧ ∀ prog : ConsumerProg α,
        inplace_or_alloc_array_run sizeOfT limit 0 prog = none
        ∨ inplace_or_alloc_array_run sizeOfT limit 0 prog = some [] := by
  refine ⟨?_, ?_, ?_⟩
  · rw [storage_decision_eq, storage_decision_spec]
    rw [if_pos ⟨by omega, by simp [bucketSpec]⟩]
    rfl
  · rw [guard_eq_replicate]
    rfl
  · intro prog
    rw [inplace_run_eq]
    cases h : runConsumer prog (List.replicate 0 (none : Option α)) 0 with
    | none => left; rfl
    | some out =>
      right
      have hnil := runConsumer_nil prog 0 out h
      simp [hnil.2]

/-- C10: after the consumer returns, the heap vector's length has been
reset to zero, so its own drop destructs nothing: alloc_array's
destructor trace is exactly the trace of the guards the consumer
created, and every event in it is the destruction of an initialized
slot — uninitialized slots are never destructed. -/
theorem alloc_array_vec_len_reset {α : Type} [Inhabited α] (size : Nat)
    (prog : ConsumerProg α) (out : RunOut α)
    (hrun : runConsumer prog (List.replicate size none) 0 = some out) :
    alloc_array_run size prog = some out.drops
    ∧ vecDropEvents (RustVec.mk out.region 0) = []
    ∧ ∀ e ∈ out.drops, (e.2).isSome = true := by
  refine ⟨?_, rfl, drops_isSome prog _ 0 out hrun⟩
  rw [alloc_array_run_eq, hrun]
  rfl

/-- Witness for C10 on a two-slot heap buffer. -/
theorem alloc_array_vec_len_reset_witness :
    runConsumer (ConsumerProg.initWith (fun i : Nat => i))
        (List.replicate 2 (none : Option Nat)) 0
      = some ⟨[some 0, some 1], [(0, some 0), (1, some 1)], [0, 1]⟩
    ∧ alloc_array_run 2 (ConsumerProg.initWith (fun i : Nat => i))
      = some [(0, some 0), (1, some 1)] := by
  have hrun : runConsumer (ConsumerProg.initWith (fun i : Nat => i))
      (List.replicate 2 (none : Option Nat)) 0
      = some ⟨[some 0, some 1], [(0, some 0), (1, some 1)], [0, 1]⟩ := by decide
  exact ⟨hrun, (alloc_array_vec_len_reset 2 _ _ hrun).1⟩


end InplaceIt
